import Mathlib

/-!
Verification of the CDAS repository core logic: the SQL migration runner
(`app/migrations.py`, whose full source is recorded in
`docs/plans/2026-01-21-db-migration-normalization-implementation.md`) and the
evaluation / rubric normalization helpers described by the product design
documents.  Machine strings are modelled as Lean `String`, SQL execution as an
abstract statement interpreter supplied as a parameter, and the database file
system as explicit record fields.
-/

namespace CDAS

/-! ### String helpers

The migration runner manipulates Python strings with `str.lower`,
`str.strip`, `str.split(";")`, `"pat" in msg`, and `Path.stem`.  These are
embedded as structurally recursive functions over `List Char` so that all
definitions evaluate inside the kernel. -/

/-- Whitespace test matching the characters stripped by Python `str.strip`
on the ASCII SQL text used by the migrations. -/
def isWS (c : Char) : Bool :=
  c = ' ' || c = '\n' || c = '\t' || c = '\r' || c = '\x0b' || c = '\x0c'

/-- ASCII lower-casing of one character, as Python `str.lower` acts on the
error messages involved. -/
def lowerChar (c : Char) : Char :=
  if 'A' ≤ c && c ≤ 'Z' then Char.ofNat (c.toNat + 32) else c

/-- Python `str.lower`. -/
def lowerStr (s : String) : String :=
  ⟨s.data.map lowerChar⟩

/-- Substring occurrence test: Python `pat in s`. -/
def containsSub (pat : List Char) : List Char → Bool
  | [] => pat.isEmpty
  | c :: rest => pat.isPrefixOf (c :: rest) || containsSub pat rest

/-- Python `str.strip`: drop whitespace from both ends. -/
def trimCL (cs : List Char) : List Char :=
  (cs.dropWhile isWS).rdropWhile isWS

/-- Split a character list at every `;`, as Python `sql.split(";")`. -/
def splitSemi : List Char → List Char → List (List Char)
  | [], acc => [acc.reverse]
  | c :: rest, acc =>
      if c = ';' then acc.reverse :: splitSemi rest []
      else splitSemi rest (c :: acc)

/-- `_split_sql` from `app/migrations.py`:
`[stmt.strip() for stmt in sql.split(";") if stmt.strip()]`. -/
def split_sql (sql : String) : List String :=
  ((splitSemi sql.data []).map (fun cs => (⟨trimCL cs⟩ : String))).filter
    (fun s => s ≠ "")

/-- Python `Path(name).stem`: the file name with its last extension removed. -/
def stemOf (name : String) : String :=
  let cs := name.data
  if cs.contains '.' then
    ⟨(((cs.reverse.dropWhile (fun c => c ≠ '.')).drop 1)).reverse⟩
  else ⟨cs⟩

/-- Version extraction in `run_migrations`: `path.stem.split("_", 1)[0]`. -/
def versionOf (name : String) : String :=
  ⟨(stemOf name).data.takeWhile (fun c => c ≠ '_')⟩

/-- `_is_ignorable_sqlite_error` from `app/migrations.py`: the lower-cased
message contains `"duplicate column name"` or `"already exists"`. -/
def is_ignorable_sqlite_error (msg : String) : Bool :=
  let m := (lowerStr msg).data
  containsSub "duplicate column name".data m || containsSub "already exists".data m

/-! ### Migration runner model

`run_migrations(engine)` from `app/migrations.py` is embedded with:
* the SQL engine as an abstract statement interpreter
  `exec : String → σ → ExecResult σ` over an abstract schema type `σ`
  (an erroring SQLite statement leaves the schema unchanged and reports a
  message, which the runner inspects);
* the engine URL as the `drivername` and `database` arguments;
* the database file and its backup as fields of `DB`;
* per-file transactional execution: on a propagated error the transaction
  that wraps one file and its ledger insert is rolled back.
The run also returns a trace of the engine-facing events in order, used to
state temporal properties. -/

/-- One migration file: its file name (carrying the version prefix) and its
SQL text. -/
structure MigFile where
  name : String
  content : String
deriving DecidableEq

/-- Result of executing one SQL statement against a schema. -/
inductive ExecResult (σ : Type) where
  | ok (s : σ)
  | err (msg : String)

/-- Observable events of a migration run, in order. -/
inductive Event where
  | backup
  | ledgerCreate
  | stmtExec (file : String) (stmt : String)
  | ledgerInsert (version : String)
deriving DecidableEq

/-- Every event other than the backup copy mutates the database. -/
def isMutation : Event → Bool
  | .backup => false
  | _ => true

/-- The database state: whether the db file exists on disk, whether the
`schema_migrations` table exists, the ledger rows (duplicate-free by its
primary key), the abstract schema, and the contents of the backup file. -/
structure DB (σ : Type) where
  fileExists : Bool
  ledgerExists : Bool
  ledger : List String
  schema : σ
  backupFile : Option (Bool × List String × σ)
deriving DecidableEq

/-- Outcome of a whole run: final database, event trace, propagated error. -/
structure RunOutcome (σ : Type) where
  db : DB σ
  trace : List Event
  error : Option String
deriving DecidableEq

/-- Outcome of the per-file loop. -/
structure FilesOutcome (σ : Type) where
  ledger : List String
  schema : σ
  trace : List Event
  error : Option String
deriving DecidableEq

/-- Record one more attempted statement event in front of a statement-loop
outcome (ghost bookkeeping of the trace). -/
def prependEv (ev : Event) :
    Except (String × List Event) (σ × List Event) →
      Except (String × List Event) (σ × List Event)
  | .ok (s, evs) => .ok (s, ev :: evs)
  | .error (m, evs) => .error (m, ev :: evs)

/-- The statement loop of one file inside its transaction: blank statements
are skipped, an ignorable `OperationalError` is logged and skipped, any other
error is raised.  Returns the new schema and the event list, or the error
message and the events attempted up to it. -/
def runStmts (exec : String → σ → ExecResult σ) (fname : String) :
    List String → σ → Except (String × List Event) (σ × List Event)
  | [], s => .ok (s, [])
  | stmt :: rest, s =>
      if (⟨trimCL stmt.data⟩ : String) = "" then runStmts exec fname rest s
      else
        match exec stmt s with
        | .ok s' =>
            prependEv (.stmtExec fname stmt) (runStmts exec fname rest s')
        | .err m =>
            if is_ignorable_sqlite_error m then
              prependEv (.stmtExec fname stmt) (runStmts exec fname rest s)
            else .error (m, [.stmtExec fname stmt])

/-- The SQLite message produced when the ledger insert hits the
`version TEXT PRIMARY KEY` constraint; it is an `IntegrityError`, which the
runner never catches. -/
def uniqueViolationMsg : String :=
  "UNIQUE constraint failed: schema_migrations.version"

/-- One migration file inside one transaction: run every statement, then
insert the version row.  A propagated error rolls the transaction back. -/
def runFile (exec : String → σ → ExecResult σ) (f : MigFile)
    (ledger : List String) (schema : σ) :
    Except (String × List Event) (List String × σ × List Event) :=
  match runStmts exec f.name (split_sql f.content) schema with
  | .error (m, evs) => .error (m, evs)
  | .ok (s', evs) =>
      let v := versionOf f.name
      if v ∈ ledger then .error (uniqueViolationMsg, evs)
      else .ok (ledger ++ [v], s', evs ++ [.ledgerInsert v])

/-- The per-file loop of `run_migrations`: files whose version is in the
`applied` set read at the start of the run are skipped; a propagated error
stops the whole loop with the current file rolled back. -/
def runFiles (exec : String → σ → ExecResult σ) (applied : List String) :
    List MigFile → List String → σ → FilesOutcome σ
  | [], ledger, s => ⟨ledger, s, [], none⟩
  | f :: fs, ledger, s =>
      if versionOf f.name ∈ applied then runFiles exec applied fs ledger s
      else
        match runFile exec f ledger s with
        | .ok (ledger', s', evs) =>
            let r := runFiles exec applied fs ledger' s'
            ⟨r.ledger, r.schema, evs ++ r.trace, r.error⟩
        | .error (m, evs) => ⟨ledger, s, evs, some m⟩

/-- `_backup_sqlite_db` from `app/migrations.py`: skipped when the URL has no
database path; otherwise, when the db file exists, its contents are copied to
the backup path. -/
def backup_sqlite_db (database : Option String) (db : DB σ) :
    DB σ × List Event :=
  match database with
  | none => (db, [])
  | some p =>
      if p = "" then (db, [])
      else if db.fileExists then
        ({ db with backupFile := some (db.ledgerExists, db.ledger, db.schema) },
          [Event.backup])
      else (db, [])

/-- The `CREATE TABLE IF NOT EXISTS schema_migrations` step of the first
transaction: create an empty ledger when it is absent. -/
def ensureLedger (db : DB σ) : DB σ :=
  if db.ledgerExists then db else { db with ledgerExists := true, ledger := [] }

/-- `run_migrations(engine)` from `app/migrations.py`.  `files` is the sorted
listing of `migrations/sql/*.sql`. -/
def run_migrations (exec : String → σ → ExecResult σ) (drivername : String)
    (database : Option String) (files : List MigFile) (db : DB σ) :
    RunOutcome σ :=
  if drivername = "sqlite" then
    let bp := backup_sqlite_db database db
    let db2 := ensureLedger bp.1
    let r := runFiles exec db2.ledger files db2.ledger db2.schema
    ⟨{ db2 with ledger := r.ledger, schema := r.schema },
      bp.2 ++ Event.ledgerCreate :: r.trace, r.error⟩
  else ⟨db, [], none⟩

/-! ### Evaluation levels and teacher evaluation input

The canonical four-level scheme and the backend acceptance logic for teacher
evaluations, embedded from the snippet in
`docs/plans/2026-01-21-frontend-evaluation-four-level-implementation.md`
(Task 3) together with the `TeacherEvaluationCreate` shape mirrored in
`frontend/src/lib/api.ts`. -/

/-- The canonical four-level scheme `EvaluationLevel`. -/
inductive EvaluationLevel where
  | excellent
  | good
  | pass
  | improve
deriving DecidableEq

/-- `level_map` from the four-level implementation plan:
`{4: EXCELLENT, 3: GOOD, 2: PASS, 1: IMPROVE}`; lookup of any other key
misses. -/
def level_map (n : Int) : Option EvaluationLevel :=
  if n = 4 then some .excellent
  else if n = 3 then some .good
  else if n = 2 then some .pass
  else if n = 1 then some .improve
  else none

/-- The teacher evaluation request body: `score_level` is optional and
defaults to `None`. -/
structure TeacherEvaluationCreate where
  submission_id : Int
  score_numeric : Int
  score_level : Option EvaluationLevel := none
  feedback : String := ""
deriving DecidableEq

/-- The acceptance logic of the teacher evaluation endpoint (plan Task 3):
reject `score_numeric` outside `level_map` with HTTP 400, otherwise persist
`score_level = data.score_level or level_map[data.score_numeric]`. -/
def derive_teacher_evaluation (data : TeacherEvaluationCreate) :
    Except String (Int × EvaluationLevel) :=
  match level_map data.score_numeric with
  | none => .error "score_numeric must be 1-4"
  | some lvl => .ok (data.score_numeric, data.score_level.getD lvl)

/-- Modelled from the spec: `_level_label` in `app/api/v2/evaluations.py` is
not part of the repository sources (only its tests and plan description
are); the Chinese display label for each canonical level follows the tests
in the rubric refactor plan. -/
def level_label : EvaluationLevel → String
  | .excellent => "优秀"
  | .good => "良好"
  | .pass => "合格"
  | .improve => "需改进"

/-! ### Dimension score clamping and aggregation

Modelled from the spec: `_normalize_dimension_scores` and
`_compute_average_score` in `app/api/v2/evaluations.py` are not part of the
repository sources (only their tests and plan descriptions are).  The
definitions follow the spec wording: clamp present numeric raw scores into
`[1,4]`, substitute the fallback otherwise; the aggregate is the mean of the
dimension values rounded to the nearest integer with exact halves rounding
up, clamped into `[1,4]`. -/

/-- One rubric dimension as consumed by the scorer: only its name matters. -/
structure DimensionInfo where
  name : String
deriving DecidableEq

/-- A raw score entry: a numeric value, or a present but non-numeric value. -/
inductive RawScore where
  | num (x : Int)
  | notNum
deriving DecidableEq

/-- Clamp into the inclusive range `[1,4]`. -/
def clampScore (x : Int) : Int := max 1 (min 4 x)

/-- Modelled from the spec: `_normalize_dimension_scores(dimensions,
raw_scores, fallback)`.  `raw` maps a dimension name to its raw entry when
present. -/
def normalize_dimension_scores (dims : List DimensionInfo)
    (raw : String → Option RawScore) (fallback : Int) : List (String × Int) :=
  dims.map fun d =>
    (d.name,
      match raw d.name with
      | some (.num x) => clampScore x
      | _ => fallback)

/-- Modelled from the spec: `_compute_average_score(dimension_scores)` —
mean of the values, rounded to the nearest integer with `0.5` rounding up,
clamped into `[1,4]`.  The empty mapping yields the default score 2. -/
def compute_average_score (scores : List (String × Int)) : Int :=
  if scores.length = 0 then 2
  else
    clampScore
      ((2 * (scores.map Prod.snd).sum + scores.length) /
        (2 * (scores.length : Int)))

/-! ### Rubric normalization

Modelled from the spec: `_normalize_ai_assignment_output` and
`_default_rubric` in `app/api/v2/assignments.py` are not part of the
repository sources (only their tests and plan descriptions are).  The model
covers the recognized input shapes — an absent rubric, a flat list of
dimension names, and dimension objects possibly carrying a legacy numeric
weight or a partial levels mapping — and always produces dimensions whose
`levels` mapping holds exactly the four canonical keys with non-empty text,
backfilling a default phrase derived from the dimension name and level. -/

/-- Canonical levels mapping: exactly the four keys, each with text. -/
structure Levels where
  excellent : String
  good : String
  pass : String
  improve : String
deriving DecidableEq

/-- Partial levels mapping as it may arrive from legacy or AI input. -/
structure LevelsInput where
  excellent : Option String := none
  good : Option String := none
  pass : Option String := none
  improve : Option String := none
deriving DecidableEq

/-- A dimension object as it may arrive from legacy or AI input. -/
structure DimInput where
  name : String
  weight : Option Int := none
  description : Option String := none
  levels : Option LevelsInput := none
deriving DecidableEq

/-- The rubric value purporting to describe evaluation dimensions. -/
inductive RubricInput where
  | missing
  | nameList (names : List String)
  | dimList (dims : List DimInput)
deriving DecidableEq

/-- A canonical dimension. -/
structure CanonDim where
  name : String
  levels : Levels
deriving DecidableEq

/-- A canonical rubric. -/
structure CanonRubric where
  dimensions : List CanonDim
deriving DecidableEq

/-- Assignment types, which select distinct default dimension sets. -/
inductive AssignmentType where
  | practical
  | inquiry
  | project
deriving DecidableEq

/-- Modelled from the spec: the generic default phrase for a missing level
description, derived from the dimension name and the level. -/
def default_level_text (name : String) (lvl : EvaluationLevel) : String :=
  name ++ "——" ++ level_label lvl ++ "水平的表现"

/-- Modelled from the spec: use the given level description when present and
non-empty, else backfill the default phrase. -/
def fill_level (name : String) (lvl : EvaluationLevel)
    (given : Option String) : String :=
  match given with
  | some t => if t = "" then default_level_text name lvl else t
  | none => default_level_text name lvl

/-- Modelled from the spec: normalize one dimension object to canonical
shape, discarding any legacy weight or flat description. -/
def normalize_dim (d : DimInput) : CanonDim :=
  let li := d.levels.getD {}
  ⟨d.name,
    ⟨fill_level d.name .excellent li.excellent,
      fill_level d.name .good li.good,
      fill_level d.name .pass li.pass,
      fill_level d.name .improve li.improve⟩⟩

/-- Modelled from the spec: the distinct default dimension sets per
assignment type. -/
def default_dimension_names : AssignmentType → List String
  | .practical => ["实践操作", "合作与反思"]
  | .inquiry => ["问题与假设", "证据与论证"]
  | .project => ["方案设计", "成果展示"]

/-- Modelled from the spec: `_default_rubric(assignment_type)` — the default
four-level rubric for an assignment type. -/
def default_rubric (atype : AssignmentType) : CanonRubric :=
  ⟨(default_dimension_names atype).map fun n => normalize_dim ⟨n, none, none, none⟩⟩

/-- Modelled from the spec: the rubric part of
`_normalize_ai_assignment_output` — empty or absent input yields the default
rubric for the assignment type, a flat name list becomes dimensions with
default levels, and dimension objects are normalized one by one. -/
def normalize_rubric (atype : AssignmentType) : RubricInput → CanonRubric
  | .missing => default_rubric atype
  | .nameList names =>
      if names = [] then default_rubric atype
      else ⟨names.map fun n => normalize_dim ⟨n, none, none, none⟩⟩
  | .dimList dims =>
      if dims = [] then default_rubric atype
      else ⟨dims.map normalize_dim⟩

/-- View a canonical rubric as input again, for the idempotence statement. -/
def canon_to_input (r : CanonRubric) : RubricInput :=
  .dimList <| r.dimensions.map fun d =>
    ⟨d.name, none, none,
      some ⟨some d.levels.excellent, some d.levels.good,
        some d.levels.pass, some d.levels.improve⟩⟩

/-- Erase the legacy weight field of a dimension object. -/
def eraseWeight (d : DimInput) : DimInput :=
  { d with weight := none }

/-! ### Legacy level input normalization

Modelled from the spec: `_normalize_level_input` in
`app/api/v2/evaluations.py` is not part of the repository sources (only its
tests and plan descriptions are).  It accepts a legacy letter grade, an
already-canonical label, a 1–4 number or a 0–100 percentage, and maps
anything unrecognized to the lowest level. -/

/-- A legacy level input value: a string token or a number. -/
inductive LevelInput where
  | str (s : String)
  | num (n : Int)
deriving DecidableEq

/-- Modelled from the spec: `_normalize_level_input` — letters A/B/C/D map
1:1 to the four levels, canonical labels pass through, numbers 1–4 map to
their level, percentages use the fixed bands `≥90/≥75/≥60`, and anything
else falls back to `improve`. -/
def normalize_level_input : LevelInput → EvaluationLevel
  | .str s =>
      if s = "A" ∨ s = "excellent" then .excellent
      else if s = "B" ∨ s = "good" then .good
      else if s = "C" ∨ s = "pass" then .pass
      else if s = "D" ∨ s = "improve" then .improve
      else .improve
  | .num n =>
      if n = 4 then .excellent
      else if n = 3 then .good
      else if n = 2 then .pass
      else if n = 1 then .improve
      else if n ≥ 90 then .excellent
      else if n ≥ 75 then .good
      else if n ≥ 60 then .pass
      else .improve

/-! ### Helper lemmas -/

theorem trimCL_idem (cs : List Char) : trimCL (trimCL cs) = trimCL cs := by
  unfold trimCL
  have h1 : (((cs.dropWhile isWS).rdropWhile isWS).dropWhile isWS) =
      (cs.dropWhile isWS).rdropWhile isWS := by
    rw [List.dropWhile_eq_self_iff]
    intro hl
    have hpre := List.rdropWhile_prefix isWS (cs.dropWhile isWS)
    have hlen : 0 < (cs.dropWhile isWS).length :=
      lt_of_lt_of_le hl hpre.length_le
    have h2 := List.dropWhile_get_zero_not (p := isWS) cs hlen
    rw [hpre.get_eq hl]
    exact h2
  rw [h1, List.rdropWhile_idempotent]

theorem split_sql_mem {c st} (h : st ∈ split_sql c) :
    (⟨trimCL st.data⟩ : String) = st ∧ st ≠ "" := by
  unfold split_sql at h
  rw [List.mem_filter] at h
  obtain ⟨hmem, hne⟩ := h
  rw [List.mem_map] at hmem
  obtain ⟨cs, _, rfl⟩ := hmem
  refine ⟨?_, by simpa using hne⟩
  show (⟨trimCL (String.mk (trimCL cs)).data⟩ : String) = ⟨trimCL cs⟩
  rw [show (String.mk (trimCL cs)).data = trimCL cs from rfl, trimCL_idem]

/-- Trace of a statement-loop outcome. -/
def stmtsTrace : Except (String × List Event) (σ × List Event) → List Event
  | .ok (_, evs) => evs
  | .error (_, evs) => evs

theorem stmtsTrace_prependEv (ev : Event)
    (x : Except (String × List Event) (σ × List Event)) :
    stmtsTrace (prependEv ev x) = ev :: stmtsTrace x := by
  rcases x with ⟨m, evs⟩ | ⟨s, evs⟩ <;> rfl

theorem runStmts_trace_shape (exec : String → σ → ExecResult σ) (fn : String) :
    ∀ (stmts : List String) (s : σ) (e : Event),
      e ∈ stmtsTrace (runStmts exec fn stmts s) → ∃ st, e = .stmtExec fn st := by
  intro stmts
  induction stmts with
  | nil => intro s e h; simp [runStmts, stmtsTrace] at h
  | cons st rest ih =>
      intro s e h
      rw [runStmts] at h
      by_cases ht : (⟨trimCL st.data⟩ : String) = ""
      · rw [if_pos ht] at h; exact ih s e h
      · rw [if_neg ht] at h
        cases hx : exec st s with
        | ok s' =>
            rw [hx] at h
            simp only [stmtsTrace_prependEv, List.mem_cons] at h
            rcases h with h | h
            · exact ⟨st, h⟩
            · exact ih s' e h
        | err m =>
            rw [hx] at h
            by_cases hi : is_ignorable_sqlite_error m = true
            · simp only [hi, if_true, stmtsTrace_prependEv, List.mem_cons] at h
              rcases h with h | h
              · exact ⟨st, h⟩
              · exact ih s e h
            · rw [Bool.not_eq_true] at hi
              simp only [hi, Bool.false_eq_true, if_false, stmtsTrace,
                List.mem_singleton] at h
              exact ⟨st, h⟩

theorem runStmts_cons_trace (exec : String → σ → ExecResult σ) (fn st0 : String)
    (rest : List String) (s : σ) (h : (⟨trimCL st0.data⟩ : String) ≠ "") :
    ∃ tl, stmtsTrace (runStmts exec fn (st0 :: rest) s) =
      Event.stmtExec fn st0 :: tl := by
  rw [runStmts, if_neg h]
  cases hx : exec st0 s with
  | ok s' => exact ⟨_, stmtsTrace_prependEv _ _⟩
  | err m =>
      by_cases hi : is_ignorable_sqlite_error m = true
      · simp only [hi, if_true]
        exact ⟨_, stmtsTrace_prependEv _ _⟩
      · rw [Bool.not_eq_true] at hi
        simp only [hi, Bool.false_eq_true, if_false]
        exact ⟨[], rfl⟩

theorem runFile_stmts_err (exec : String → σ → ExecResult σ) (f : MigFile)
    (l : List String) (s : σ) (m : String) (evs : List Event)
    (hs : runStmts exec f.name (split_sql f.content) s = .error (m, evs)) :
    runFile exec f l s = .error (m, evs) := by
  unfold runFile; rw [hs]

theorem runFile_stmts_ok_dup (exec : String → σ → ExecResult σ) (f : MigFile)
    (l : List String) (s s' : σ) (evs : List Event)
    (hs : runStmts exec f.name (split_sql f.content) s = .ok (s', evs))
    (hv : versionOf f.name ∈ l) :
    runFile exec f l s = .error (uniqueViolationMsg, evs) := by
  unfold runFile; rw [hs]; dsimp only; rw [if_pos hv]

theorem runFile_stmts_ok (exec : String → σ → ExecResult σ) (f : MigFile)
    (l : List String) (s s' : σ) (evs : List Event)
    (hs : runStmts exec f.name (split_sql f.content) s = .ok (s', evs))
    (hv : versionOf f.name ∉ l) :
    runFile exec f l s =
      .ok (l ++ [versionOf f.name], s',
        evs ++ [Event.ledgerInsert (versionOf f.name)]) := by
  unfold runFile; rw [hs]; dsimp only; rw [if_neg hv]

theorem runFiles_nil (exec : String → σ → ExecResult σ) (a : List String)
    (l : List String) (s : σ) : runFiles exec a [] l s = ⟨l, s, [], none⟩ := rfl

theorem runFiles_cons_skip (exec : String → σ → ExecResult σ) (a : List String)
    (f : MigFile) (fs : List MigFile) (l : List String) (s : σ)
    (h : versionOf f.name ∈ a) :
    runFiles exec a (f :: fs) l s = runFiles exec a fs l s := by
  rw [runFiles, if_pos h]

theorem runFiles_cons_ok (exec : String → σ → ExecResult σ) (a : List String)
    (f : MigFile) (fs : List MigFile) (l l' : List String) (s s' : σ)
    (evs : List Event) (h : versionOf f.name ∉ a)
    (hf : runFile exec f l s = .ok (l', s', evs)) :
    runFiles exec a (f :: fs) l s =
      ⟨(runFiles exec a fs l' s').ledger, (runFiles exec a fs l' s').schema,
        evs ++ (runFiles exec a fs l' s').trace,
        (runFiles exec a fs l' s').error⟩ := by
  rw [runFiles, if_neg h, hf]

theorem runFiles_cons_err (exec : String → σ → ExecResult σ) (a : List String)
    (f : MigFile) (fs : List MigFile) (l : List String) (s : σ)
    (m : String) (evs : List Event) (h : versionOf f.name ∉ a)
    (hf : runFile exec f l s = .error (m, evs)) :
    runFiles exec a (f :: fs) l s = ⟨l, s, evs, some m⟩ := by
  rw [runFiles, if_neg h, hf]

theorem runFiles_append (exec : String → σ → ExecResult σ) (a : List String) :
    ∀ (xs ys : List MigFile) (l : List String) (s : σ),
      runFiles exec a (xs ++ ys) l s =
        (if (runFiles exec a xs l s).error = none then
          ⟨(runFiles exec a ys (runFiles exec a xs l s).ledger
              (runFiles exec a xs l s).schema).ledger,
            (runFiles exec a ys (runFiles exec a xs l s).ledger
              (runFiles exec a xs l s).schema).schema,
            (runFiles exec a xs l s).trace ++
              (runFiles exec a ys (runFiles exec a xs l s).ledger
                (runFiles exec a xs l s).schema).trace,
            (runFiles exec a ys (runFiles exec a xs l s).ledger
              (runFiles exec a xs l s).schema).error⟩
        else runFiles exec a xs l s) := by
  intro xs
  induction xs with
  | nil => intro ys l s; simp [runFiles_nil]
  | cons f fs ih =>
      intro ys l s
      by_cases hv : versionOf f.name ∈ a
      · rw [List.cons_append, runFiles_cons_skip _ _ _ _ _ _ hv,
          runFiles_cons_skip _ _ _ _ _ _ hv, ih]
      · cases hf : runFile exec f l s with
        | ok p =>
            obtain ⟨l', s', evs⟩ := p
            rw [List.cons_append, runFiles_cons_ok _ _ _ _ _ _ _ _ _ hv hf,
              runFiles_cons_ok _ _ _ _ _ _ _ _ _ hv hf, ih]
            by_cases he : (runFiles exec a fs l' s').error = none
            · simp [he, List.append_assoc]
            · simp [he]
        | error p =>
            obtain ⟨m, evs⟩ := p
            rw [List.cons_append, runFiles_cons_err _ _ _ _ _ _ _ _ hv hf,
              runFiles_cons_err _ _ _ _ _ _ _ _ hv hf]
            simp

theorem runFiles_ledger_ext (exec : String → σ → ExecResult σ)
    (a : List String) :
    ∀ (fs : List MigFile) (l : List String) (s : σ),
      ∃ ext, (runFiles exec a fs l s).ledger = l ++ ext := by
  intro fs
  induction fs with
  | nil => intro l s; exact ⟨[], by simp [runFiles_nil]⟩
  | cons f fs ih =>
      intro l s
      by_cases hv : versionOf f.name ∈ a
      · rw [runFiles_cons_skip _ _ _ _ _ _ hv]; exact ih l s
      · cases hs : runStmts exec f.name (split_sql f.content) s with
        | error p =>
            obtain ⟨m, evs⟩ := p
            rw [runFiles_cons_err _ _ _ _ _ _ _ _ hv
              (runFile_stmts_err _ _ _ _ _ _ hs)]
            exact ⟨[], by simp⟩
        | ok p =>
            obtain ⟨s', evs0⟩ := p
            by_cases hvl : versionOf f.name ∈ l
            · rw [runFiles_cons_err _ _ _ _ _ _ _ _ hv
                (runFile_stmts_ok_dup _ _ _ _ _ _ hs hvl)]
              exact ⟨[], by simp⟩
            · rw [runFiles_cons_ok _ _ _ _ _ _ _ _ _ hv
                (runFile_stmts_ok _ _ _ _ _ _ hs hvl)]
              obtain ⟨ext, hext⟩ := ih (l ++ [versionOf f.name]) s'
              exact ⟨[versionOf f.name] ++ ext, by
                rw [hext, List.append_assoc]⟩

theorem runFiles_all_mem (exec : String → σ → ExecResult σ)
    (a : List String) :
    ∀ (fs : List MigFile) (l : List String) (s : σ),
      a ⊆ l → (runFiles exec a fs l s).error = none →
      ∀ f ∈ fs, versionOf f.name ∈ (runFiles exec a fs l s).ledger := by
  intro fs
  induction fs with
  | nil => intro l s _ _ f hf; simp at hf
  | cons g fs ih =>
      intro l s hsub herr f hf
      by_cases hv : versionOf g.name ∈ a
      · rw [runFiles_cons_skip _ _ _ _ _ _ hv] at herr ⊢
        cases hf with
        | head =>
            obtain ⟨ext, hext⟩ := runFiles_ledger_ext exec a fs l s
            rw [hext]
            exact List.mem_append_left _ (hsub hv)
        | tail _ hf => exact ih l s hsub herr f hf
      · cases hs : runStmts exec g.name (split_sql g.content) s with
        | error p =>
            obtain ⟨m, evs⟩ := p
            rw [runFiles_cons_err _ _ _ _ _ _ _ _ hv
              (runFile_stmts_err _ _ _ _ _ _ hs)] at herr
            simp at herr
        | ok p =>
            obtain ⟨s', evs0⟩ := p
            by_cases hvl : versionOf g.name ∈ l
            · rw [runFiles_cons_err _ _ _ _ _ _ _ _ hv
                (runFile_stmts_ok_dup _ _ _ _ _ _ hs hvl)] at herr
              simp at herr
            · rw [runFiles_cons_ok _ _ _ _ _ _ _ _ _ hv
                (runFile_stmts_ok _ _ _ _ _ _ hs hvl)] at herr ⊢
              have hsub' : a ⊆ l ++ [versionOf g.name] :=
                hsub.trans (List.subset_append_left _ _)
              cases hf with
              | head =>
                  obtain ⟨ext, hext⟩ :=
                    runFiles_ledger_ext exec a fs (l ++ [versionOf g.name]) s'
                  rw [hext, List.append_assoc]
                  exact List.mem_append_right _
                    (List.mem_append_left _ (List.mem_singleton_self _))
              | tail _ hf => exact ih _ s' hsub' herr f hf

theorem runFiles_skip_all (exec : String → σ → ExecResult σ)
    (a : List String) :
    ∀ (fs : List MigFile) (l : List String) (s : σ),
      (∀ f ∈ fs, versionOf f.name ∈ a) →
      runFiles exec a fs l s = ⟨l, s, [], none⟩ := by
  intro fs
  induction fs with
  | nil => intro l s _; rfl
  | cons g fs ih =>
      intro l s hall
      rw [runFiles_cons_skip _ _ _ _ _ _ (hall g (List.mem_cons_self g fs))]
      exact ih l s fun f hf => hall f (List.mem_cons_of_mem g hf)

theorem runFiles_nodup (exec : String → σ → ExecResult σ)
    (a : List String) :
    ∀ (fs : List MigFile) (l : List String) (s : σ),
      l.Nodup → (runFiles exec a fs l s).error = none →
      (runFiles exec a fs l s).ledger.Nodup := by
  intro fs
  induction fs with
  | nil => intro l s hnd _; simpa [runFiles_nil] using hnd
  | cons g fs ih =>
      intro l s hnd herr
      by_cases hv : versionOf g.name ∈ a
      · rw [runFiles_cons_skip _ _ _ _ _ _ hv] at herr ⊢
        exact ih l s hnd herr
      · cases hs : runStmts exec g.name (split_sql g.content) s with
        | error p =>
            obtain ⟨m, evs⟩ := p
            rw [runFiles_cons_err _ _ _ _ _ _ _ _ hv
              (runFile_stmts_err _ _ _ _ _ _ hs)] at herr
            simp at herr
        | ok p =>
            obtain ⟨s', evs0⟩ := p
            by_cases hvl : versionOf g.name ∈ l
            · rw [runFiles_cons_err _ _ _ _ _ _ _ _ hv
                (runFile_stmts_ok_dup _ _ _ _ _ _ hs hvl)] at herr
              simp at herr
            · rw [runFiles_cons_ok _ _ _ _ _ _ _ _ _ hv
                (runFile_stmts_ok _ _ _ _ _ _ hs hvl)] at herr ⊢
              refine ih _ s' ?_ herr
              rw [← List.concat_eq_append]
              exact List.Nodup.concat hvl hnd

theorem runFile_trace_shape (exec : String → σ → ExecResult σ) (f : MigFile)
    (l : List String) (s : σ) (e : Event) :
    (∀ l' s' evs, runFile exec f l s = .ok (l', s', evs) → e ∈ evs →
      (∃ st, e = .stmtExec f.name st) ∨
        e = .ledgerInsert (versionOf f.name)) ∧
    (∀ m evs, runFile exec f l s = .error (m, evs) → e ∈ evs →
      ∃ st, e = .stmtExec f.name st) := by
  constructor
  · intro l' s' evs hf he
    cases hs : runStmts exec f.name (split_sql f.content) s with
    | error p =>
        obtain ⟨m, evs0⟩ := p
        rw [runFile_stmts_err _ _ _ _ _ _ hs] at hf
        exact absurd hf (by simp)
    | ok p =>
        obtain ⟨s0, evs0⟩ := p
        by_cases hvl : versionOf f.name ∈ l
        · rw [runFile_stmts_ok_dup _ _ _ _ _ _ hs hvl] at hf
          exact absurd hf (by simp)
        · rw [runFile_stmts_ok _ _ _ _ _ _ hs hvl] at hf
          simp only [Except.ok.injEq, Prod.mk.injEq] at hf
          obtain ⟨-, -, hevs⟩ := hf
          subst hevs
          rcases List.mem_append.mp he with he | he
          · exact Or.inl (runStmts_trace_shape exec f.name _ s e
              (by rw [hs]; exact he))
          · exact Or.inr (List.mem_singleton.mp he)
  · intro m evs hf he
    cases hs : runStmts exec f.name (split_sql f.content) s with
    | error p =>
        obtain ⟨m0, evs0⟩ := p
        rw [runFile_stmts_err _ _ _ _ _ _ hs] at hf
        simp only [Except.error.injEq, Prod.mk.injEq] at hf
        obtain ⟨-, hevs⟩ := hf
        subst hevs
        exact runStmts_trace_shape exec f.name _ s e (by rw [hs]; exact he)
    | ok p =>
        obtain ⟨s0, evs0⟩ := p
        by_cases hvl : versionOf f.name ∈ l
        · rw [runFile_stmts_ok_dup _ _ _ _ _ _ hs hvl] at hf
          simp only [Except.error.injEq, Prod.mk.injEq] at hf
          obtain ⟨-, hevs⟩ := hf
          subst hevs
          exact runStmts_trace_shape exec f.name _ s e (by rw [hs]; exact he)
        · rw [runFile_stmts_ok _ _ _ _ _ _ hs hvl] at hf
          exact absurd hf (by simp)

theorem runFiles_no_applied_stmt (exec : String → σ → ExecResult σ)
    (a : List String) (fname stmt : String) (hap : versionOf fname ∈ a) :
    ∀ (fs : List MigFile) (l : List String) (s : σ),
      Event.stmtExec fname stmt ∉ (runFiles exec a fs l s).trace := by
  intro fs
  induction fs with
  | nil => intro l s; simp [runFiles_nil]
  | cons g fs ih =>
      intro l s
      by_cases hv : versionOf g.name ∈ a
      · rw [runFiles_cons_skip _ _ _ _ _ _ hv]; exact ih l s
      · have hgname : g.name ≠ fname := by
          intro hgn; rw [hgn] at hv; exact hv hap
        cases hf : runFile exec g l s with
        | ok p =>
            obtain ⟨l', s', evs⟩ := p
            rw [runFiles_cons_ok _ _ _ _ _ _ _ _ _ hv hf]
            intro hmem
            rcases List.mem_append.mp hmem with hmem | hmem
            · rcases (runFile_trace_shape exec g l s _).1 _ _ _ hf hmem with
                ⟨st, hst⟩ | hst
              · injection hst with h1 h2
                exact hgname h1.symm
              · exact absurd hst (by simp)
            · exact ih l' s' hmem
        | error p =>
            obtain ⟨m, evs⟩ := p
            rw [runFiles_cons_err _ _ _ _ _ _ _ _ hv hf]
            intro hmem
            obtain ⟨st, hst⟩ := (runFile_trace_shape exec g l s _).2 _ _ hf hmem
            injection hst with h1 h2
            exact hgname h1.symm

theorem backup_cases (dp : Option String) (db : DB σ) :
    backup_sqlite_db dp db = (db, []) ∨
    backup_sqlite_db dp db =
      ({ db with backupFile := some (db.ledgerExists, db.ledger, db.schema) },
        [Event.backup]) := by
  unfold backup_sqlite_db
  cases dp with
  | none => exact Or.inl rfl
  | some p =>
      dsimp only
      by_cases h1 : p = ""
      · rw [if_pos h1]; exact Or.inl rfl
      · rw [if_neg h1]
        by_cases h2 : db.fileExists = true
        · rw [if_pos h2]; exact Or.inr rfl
        · rw [if_neg h2]; exact Or.inl rfl

theorem backup_fst_fields (dp : Option String) (db : DB σ) :
    (backup_sqlite_db dp db).1.fileExists = db.fileExists ∧
    (backup_sqlite_db dp db).1.ledgerExists = db.ledgerExists ∧
    (backup_sqlite_db dp db).1.ledger = db.ledger ∧
    (backup_sqlite_db dp db).1.schema = db.schema := by
  rcases backup_cases dp db with h | h <;> rw [h] <;> exact ⟨rfl, rfl, rfl, rfl⟩

theorem backup_snd_sub (dp : Option String) (db : DB σ) :
    ∀ e ∈ (backup_sqlite_db dp db).2, e = Event.backup := by
  rcases backup_cases dp db with h | h <;> rw [h] <;> simp

theorem ensureLedger_ledgerExists (db : DB σ) :
    (ensureLedger db).ledgerExists = true := by
  unfold ensureLedger
  by_cases h : db.ledgerExists = true
  · rw [if_pos h]; exact h
  · rw [if_neg h]

theorem ensureLedger_of_true (db : DB σ) (h : db.ledgerExists = true) :
    ensureLedger db = db := by
  unfold ensureLedger; rw [if_pos h]

theorem ensureLedger_fields (db : DB σ) :
    (ensureLedger db).fileExists = db.fileExists ∧
    (ensureLedger db).schema = db.schema ∧
    (ensureLedger db).backupFile = db.backupFile := by
  unfold ensureLedger
  by_cases h : db.ledgerExists = true
  · rw [if_pos h]; exact ⟨rfl, rfl, rfl⟩
  · rw [if_neg h]; exact ⟨rfl, rfl, rfl⟩

theorem ensureLedger_ledger_nodup (db : DB σ) (h : db.ledger.Nodup) :
    (ensureLedger db).ledger.Nodup := by
  unfold ensureLedger
  by_cases he : db.ledgerExists = true
  · rw [if_pos he]; exact h
  · rw [if_neg he]; exact List.nodup_nil

theorem run_migrations_sqlite (exec : String → σ → ExecResult σ)
    (dp : Option String) (files : List MigFile) (db : DB σ) :
    run_migrations exec "sqlite" dp files db =
      ⟨{ ensureLedger (backup_sqlite_db dp db).1 with
          ledger := (runFiles exec
            (ensureLedger (backup_sqlite_db dp db).1).ledger files
            (ensureLedger (backup_sqlite_db dp db).1).ledger
            (ensureLedger (backup_sqlite_db dp db).1).schema).ledger,
          schema := (runFiles exec
            (ensureLedger (backup_sqlite_db dp db).1).ledger files
            (ensureLedger (backup_sqlite_db dp db).1).ledger
            (ensureLedger (backup_sqlite_db dp db).1).schema).schema },
        (backup_sqlite_db dp db).2 ++
          Event.ledgerCreate :: (runFiles exec
            (ensureLedger (backup_sqlite_db dp db).1).ledger files
            (ensureLedger (backup_sqlite_db dp db).1).ledger
            (ensureLedger (backup_sqlite_db dp db).1).schema).trace,
        (runFiles exec
          (ensureLedger (backup_sqlite_db dp db).1).ledger files
          (ensureLedger (backup_sqlite_db dp db).1).ledger
          (ensureLedger (backup_sqlite_db dp db).1).schema).error⟩ := by
  rw [run_migrations, if_pos rfl]

/-! ### Claim theorems for the migration runner -/

/-- Claim C10: for every engine whose URL driver name is not exactly
`"sqlite"`, `run_migrations` returns immediately as a complete no-op: the
database state (ledger, schema, backup file) is untouched, the event trace
is empty — no ledger creation, no backup, no statement execution — and no
error is raised. -/
theorem C10_non_sqlite_noop (exec : String → σ → ExecResult σ)
    (drivername : String) (database : Option String) (files : List MigFile)
    (db : DB σ) (h : drivername ≠ "sqlite") :
    run_migrations exec drivername database files db = ⟨db, [], none⟩ := by
  rw [run_migrations, if_neg h]

/-- Witness for C10 at a concrete non-SQLite engine. -/
theorem C10_non_sqlite_noop_witness :
    run_migrations (fun _ (_ : Unit) => ExecResult.ok ()) "postgresql"
      (some "app.db") [⟨"001_core_tables.sql", "SELECT 1"⟩]
      ⟨true, false, [], (), none⟩ =
      ⟨⟨true, false, [], (), none⟩, [], none⟩ :=
  C10_non_sqlite_noop _ _ _ _ _ (by decide)

/-- Claim C9: for every migration run against a file-backed SQLite database
whose database file exists, the backup copy is the first event of the run —
no mutating event precedes it — and the backup file holds the pre-run
database contents. -/
theorem C9_backup_before_mutation (exec : String → σ → ExecResult σ)
    (p : String) (files : List MigFile) (db : DB σ)
    (hp : p ≠ "") (hf : db.fileExists = true) :
    (run_migrations exec "sqlite" (some p) files db).trace.head? =
        some Event.backup ∧
    (∀ i e, (run_migrations exec "sqlite" (some p) files db).trace.get? i =
        some e → isMutation e = true → 0 < i) ∧
    (run_migrations exec "sqlite" (some p) files db).db.backupFile =
      some (db.ledgerExists, db.ledger, db.schema) := by
  have hb : backup_sqlite_db (some p) db =
      ({ db with backupFile := some (db.ledgerExists, db.ledger, db.schema) },
        [Event.backup]) := by
    unfold backup_sqlite_db
    dsimp only
    rw [if_neg hp, if_pos hf]
  rw [run_migrations_sqlite, hb]
  refine ⟨rfl, ?_, ?_⟩
  · intro i e hget hmut
    cases i with
    | zero =>
        simp only [List.cons_append, List.get?] at hget
        cases hget
        exact absurd hmut (by decide)
    | succ n => exact Nat.succ_pos n
  · show (ensureLedger
        ({ db with backupFile := some (db.ledgerExists, db.ledger, db.schema) } :
          DB σ)).backupFile = some (db.ledgerExists, db.ledger, db.schema)
    rw [(ensureLedger_fields _).2.2]

theorem run_migrations_success_state (exec : String → σ → ExecResult σ)
    (dp : Option String) (files : List MigFile) (db : DB σ)
    (hnd : db.ledger.Nodup)
    (herr : (run_migrations exec "sqlite" dp files db).error = none) :
    (run_migrations exec "sqlite" dp files db).db.ledgerExists = true ∧
    (run_migrations exec "sqlite" dp files db).db.ledger.Nodup ∧
    ∀ f ∈ files, versionOf f.name ∈
      (run_migrations exec "sqlite" dp files db).db.ledger := by
  rw [run_migrations_sqlite] at herr ⊢
  refine ⟨ensureLedger_ledgerExists _, ?_, ?_⟩
  · refine runFiles_nodup exec _ files _ _ ?_ herr
    refine ensureLedger_ledger_nodup _ ?_
    rw [(backup_fst_fields dp db).2.2.1]
    exact hnd
  · exact runFiles_all_mem exec _ files _ _ (List.Subset.refl _) herr

theorem run_migrations_noop (exec : String → σ → ExecResult σ)
    (dp : Option String) (files : List MigFile) (db1 : DB σ)
    (hE1 : db1.ledgerExists = true)
    (hall : ∀ f ∈ files, versionOf f.name ∈ db1.ledger) :
    (run_migrations exec "sqlite" dp files db1).error = none ∧
    (run_migrations exec "sqlite" dp files db1).db.ledger = db1.ledger ∧
    (run_migrations exec "sqlite" dp files db1).db.schema = db1.schema ∧
    (run_migrations exec "sqlite" dp files db1).db.ledgerExists = true ∧
    (run_migrations exec "sqlite" dp files db1).trace =
      (backup_sqlite_db dp db1).2 ++ [Event.ledgerCreate] := by
  obtain ⟨hYF, hYE, hYL, hYS⟩ := backup_fst_fields dp db1
  have hEL : ensureLedger (backup_sqlite_db dp db1).1 =
      (backup_sqlite_db dp db1).1 :=
    ensureLedger_of_true _ (hYE.trans hE1)
  have hskip : runFiles exec (backup_sqlite_db dp db1).1.ledger files
      (backup_sqlite_db dp db1).1.ledger (backup_sqlite_db dp db1).1.schema =
      ⟨(backup_sqlite_db dp db1).1.ledger,
        (backup_sqlite_db dp db1).1.schema, [], none⟩ := by
    refine runFiles_skip_all exec _ files _ _ ?_
    intro f hf
    rw [hYL]
    exact hall f hf
  rw [run_migrations_sqlite, hEL, hskip]
  exact ⟨rfl, hYL, hYS, hYE.trans hE1, rfl⟩

/-- Claim C1 counterexample: with one migration file `001_fail.sql` whose
single statement fails with a non-ignorable error, running the runner twice
from a fresh database leaves the ledger with zero applied-version rows for
the file, not exactly one. -/
theorem C1_counterexample :
    versionOf "001_fail.sql" = "001" ∧
    ((run_migrations (fun _ (_ : Unit) => ExecResult.err "near BOOM: syntax error")
        "sqlite" (some "app.db") [⟨"001_fail.sql", "BOOM"⟩]
        ((run_migrations
          (fun _ (_ : Unit) => ExecResult.err "near BOOM: syntax error")
          "sqlite" (some "app.db") [⟨"001_fail.sql", "BOOM"⟩]
          ⟨true, false, [], (), none⟩).db)).db.ledger.count "001") = 0 := by
  decide

/-- Claim C1 (amended): a version already recorded in an existing ledger has
none of its statements executed again; and whenever a run completes without
a propagated error, an immediately repeated run also succeeds, executes no
statement, inserts no version, and leaves the ledger, schema and ledger
table unchanged, the final ledger holding each migration file version
exactly once — provided the initial ledger is duplicate-free, as its
primary key maintains. -/
theorem C1_ledger_idempotence (exec : String → σ → ExecResult σ)
    (dp : Option String) (files : List MigFile) (db : DB σ)
    (hnd : db.ledger.Nodup) :
    (∀ fname stmt, db.ledgerExists = true → versionOf fname ∈ db.ledger →
      Event.stmtExec fname stmt ∉
        (run_migrations exec "sqlite" dp files db).trace) ∧
    ((run_migrations exec "sqlite" dp files db).error = none →
      (run_migrations exec "sqlite" dp files
          (run_migrations exec "sqlite" dp files db).db).error = none ∧
      (run_migrations exec "sqlite" dp files
          (run_migrations exec "sqlite" dp files db).db).db.ledger =
        (run_migrations exec "sqlite" dp files db).db.ledger ∧
      (run_migrations exec "sqlite" dp files
          (run_migrations exec "sqlite" dp files db).db).db.schema =
        (run_migrations exec "sqlite" dp files db).db.schema ∧
      (∀ fname stmt, Event.stmtExec fname stmt ∉
        (run_migrations exec "sqlite" dp files
          (run_migrations exec "sqlite" dp files db).db).trace) ∧
      (∀ v, Event.ledgerInsert v ∉
        (run_migrations exec "sqlite" dp files
          (run_migrations exec "sqlite" dp files db).db).trace) ∧
      ∀ f ∈ files,
        (run_migrations exec "sqlite" dp files db).db.ledger.count
          (versionOf f.name) = 1) := by
  constructor
  · intro fname stmt hE hv
    rw [run_migrations_sqlite]
    intro hmem
    rcases List.mem_append.mp hmem with hmem | hmem
    · have hb := backup_snd_sub dp db _ hmem
      simp at hb
    · rcases List.mem_cons.mp hmem with hmem | hmem
      · simp at hmem
      · refine runFiles_no_applied_stmt exec _ fname stmt ?_ files _ _ hmem
        rw [ensureLedger_of_true _ ((backup_fst_fields dp db).2.1.trans hE),
          (backup_fst_fields dp db).2.2.1]
        exact hv
  · intro herr
    obtain ⟨h1E, h1nd, h1all⟩ :=
      run_migrations_success_state exec dp files db hnd herr
    obtain ⟨g1, g2, g3, g4, g5⟩ :=
      run_migrations_noop exec dp files
        (run_migrations exec "sqlite" dp files db).db h1E h1all
    refine ⟨g1, g2, g3, ?_, ?_, ?_⟩
    · intro fname stmt hmem
      rw [g5] at hmem
      rcases List.mem_append.mp hmem with hmem | hmem
      · have hb := backup_snd_sub dp _ _ hmem
        simp at hb
      · simp at hmem
    · intro v hmem
      rw [g5] at hmem
      rcases List.mem_append.mp hmem with hmem | hmem
      · have hb := backup_snd_sub dp _ _ hmem
        simp at hb
      · simp at hmem
    · intro f hf
      exact List.count_eq_one_of_mem h1nd (h1all f hf)

/-- Witness for the amended claim C1 on a run that applies one file with one
succeeding statement. -/
theorem C1_ledger_idempotence_witness :
    Event.stmtExec "001_a.sql" "X" ∉
      (run_migrations (fun _ (_ : Unit) => ExecResult.ok ()) "sqlite"
        (some "app.db") [⟨"001_a.sql", "X"⟩]
        ⟨true, true, ["001"], (), none⟩).trace ∧
    (run_migrations (fun _ (_ : Unit) => ExecResult.ok ()) "sqlite"
        (some "app.db") [⟨"001_a.sql", "X"⟩]
        ((run_migrations (fun _ (_ : Unit) => ExecResult.ok ()) "sqlite"
          (some "app.db") [⟨"001_a.sql", "X"⟩]
          ⟨true, false, [], (), none⟩).db)).db.ledger.count "001" = 1 := by
  constructor
  · exact (C1_ledger_idempotence (fun _ (_ : Unit) => ExecResult.ok ())
      (some "app.db") [⟨"001_a.sql", "X"⟩] ⟨true, true, ["001"], (), none⟩
      (by decide)).1 "001_a.sql" "X" (by decide) (by decide)
  · have h := (C1_ledger_idempotence (fun _ (_ : Unit) => ExecResult.ok ())
      (some "app.db") [⟨"001_a.sql", "X"⟩] ⟨true, false, [], (), none⟩
      (by decide)).2 (by decide)
    have h2 := h.2.2.2.2.2 ⟨"001_a.sql", "X"⟩ (by decide)
    simpa using h2

/-- Witness for C9 on a concrete file-backed run. -/
theorem C9_backup_before_mutation_witness :
    (run_migrations (fun _ (_ : Unit) => ExecResult.ok ()) "sqlite"
      (some "app.db") [⟨"001_a.sql", "X"⟩]
      ⟨true, false, [], (), none⟩).trace.head? = some Event.backup :=
  (C9_backup_before_mutation (fun _ (_ : Unit) => ExecResult.ok ()) "app.db"
    [⟨"001_a.sql", "X"⟩] ⟨true, false, [], (), none⟩
    (by decide) (by decide)).1

/-- Claim C2: a non-ignorable error inside one migration file propagates to
the caller, the version of that file is not recorded — the rolled-back
transaction leaves ledger and schema exactly as they were when the file
started — and the next run retries the file, attempting its first statement
again. -/
theorem C2_rollback_unmarked_retry (exec : String → σ → ExecResult σ)
    (dp : Option String) (pre post : List MigFile) (f : MigFile) (db : DB σ)
    (l1 : List String) (s1 : σ) (evs1 : List Event)
    (m st0 : String) (rest : List String) (evsf : List Event)
    (hE : db.ledgerExists = true)
    (hpre : runFiles exec db.ledger pre db.ledger db.schema =
      ⟨l1, s1, evs1, none⟩)
    (hv : versionOf f.name ∉ l1)
    (hsplit : split_sql f.content = st0 :: rest)
    (herr : runStmts exec f.name (st0 :: rest) s1 = .error (m, evsf)) :
    (run_migrations exec "sqlite" dp (pre ++ f :: post) db).error = some m ∧
    versionOf f.name ∉
      (run_migrations exec "sqlite" dp (pre ++ f :: post) db).db.ledger ∧
    (run_migrations exec "sqlite" dp (pre ++ f :: post) db).db.ledger = l1 ∧
    (run_migrations exec "sqlite" dp (pre ++ f :: post) db).db.schema = s1 ∧
    Event.stmtExec f.name st0 ∈
      (run_migrations exec "sqlite" dp (pre ++ f :: post)
        (run_migrations exec "sqlite" dp (pre ++ f :: post) db).db).trace := by
  have hbE := (backup_fst_fields dp db).2.1
  have hbL := (backup_fst_fields dp db).2.2.1
  have hbS := (backup_fst_fields dp db).2.2.2
  have hEL : ensureLedger (backup_sqlite_db dp db).1 =
      (backup_sqlite_db dp db).1 :=
    ensureLedger_of_true _ (hbE.trans hE)
  have hstmts : runStmts exec f.name (split_sql f.content) s1 =
      .error (m, evsf) := by rw [hsplit]; exact herr
  obtain ⟨ext, hextL⟩ := runFiles_ledger_ext exec db.ledger pre db.ledger db.schema
  rw [hpre] at hextL
  have hvdb : versionOf f.name ∉ db.ledger := fun hin =>
    hv (by rw [show l1 = db.ledger ++ ext from hextL]
           exact List.mem_append_left _ hin)
  have hrun1 : runFiles exec db.ledger (pre ++ f :: post) db.ledger db.schema =
      ⟨l1, s1, evs1 ++ evsf, some m⟩ := by
    rw [runFiles_append, hpre]
    dsimp only
    rw [if_pos rfl,
      runFiles_cons_err exec db.ledger f post l1 s1 m evsf hvdb
        (runFile_stmts_err exec f l1 s1 m evsf hstmts)]
  have hout1 : run_migrations exec "sqlite" dp (pre ++ f :: post) db =
      ⟨{ (backup_sqlite_db dp db).1 with ledger := l1, schema := s1 },
        (backup_sqlite_db dp db).2 ++
          Event.ledgerCreate :: (evs1 ++ evsf), some m⟩ := by
    rw [run_migrations_sqlite, hEL, hbL, hbS, hrun1]
  rw [hout1]
  refine ⟨rfl, hv, rfl, rfl, ?_⟩
  have hallpre : ∀ g ∈ pre, versionOf g.name ∈ l1 := by
    have h := runFiles_all_mem exec db.ledger pre db.ledger db.schema
      (List.Subset.refl _) (by rw [hpre])
    rw [hpre] at h
    exact h
  have hout2core : runFiles exec l1 (pre ++ f :: post) l1 s1 =
      ⟨l1, s1, evsf, some m⟩ := by
    rw [runFiles_append, runFiles_skip_all exec l1 pre l1 s1 hallpre]
    dsimp only
    rw [if_pos rfl,
      runFiles_cons_err exec l1 f post l1 s1 m evsf hv
        (runFile_stmts_err exec f l1 s1 m evsf hstmts)]
    simp
  have hmemf : Event.stmtExec f.name st0 ∈ evsf := by
    have hst0 : st0 ∈ split_sql f.content := by
      rw [hsplit]; exact List.mem_cons_self _ _
    obtain ⟨ht1, ht2⟩ := split_sql_mem hst0
    obtain ⟨tl, htl⟩ := runStmts_cons_trace exec f.name st0 rest s1
      (by rw [ht1]; exact ht2)
    rw [herr] at htl
    dsimp only [stmtsTrace] at htl
    rw [htl]
    exact List.mem_cons_self _ _
  have hbE2 := (backup_fst_fields dp
    ({ (backup_sqlite_db dp db).1 with ledger := l1, schema := s1 } : DB σ)).2.1
  have hbL2 := (backup_fst_fields dp
    ({ (backup_sqlite_db dp db).1 with ledger := l1, schema := s1 } : DB σ)).2.2.1
  have hbS2 := (backup_fst_fields dp
    ({ (backup_sqlite_db dp db).1 with ledger := l1, schema := s1 } : DB σ)).2.2.2
  have hEL2 : ensureLedger (backup_sqlite_db dp
      ({ (backup_sqlite_db dp db).1 with ledger := l1, schema := s1 } :
        DB σ)).1 =
      (backup_sqlite_db dp
        ({ (backup_sqlite_db dp db).1 with ledger := l1, schema := s1 } :
          DB σ)).1 :=
    ensureLedger_of_true _ (hbE2.trans (hbE.trans hE))
  rw [run_migrations_sqlite, hEL2, hbL2, hbS2]
  dsimp only
  rw [hout2core]
  exact List.mem_append_right _ (List.mem_cons_of_mem _ hmemf)

/-- Witness for C2 on a concrete two-file run where the second file fails. -/
theorem C2_rollback_unmarked_retry_witness :
    (run_migrations
      (fun st (_ : Unit) =>
        if st = "OK1" then ExecResult.ok () else ExecResult.err "syntax error")
      "sqlite" (some "app.db")
      ([⟨"001_a.sql", "OK1"⟩] ++ ⟨"002_b.sql", "BAD"⟩ :: [])
      ⟨true, true, [], (), none⟩).error = some "syntax error" :=
  (C2_rollback_unmarked_retry
    (fun st (_ : Unit) =>
      if st = "OK1" then ExecResult.ok () else ExecResult.err "syntax error")
    (some "app.db") [⟨"001_a.sql", "OK1"⟩] [] ⟨"002_b.sql", "BAD"⟩
    ⟨true, true, [], (), none⟩ ["001"] ()
    [Event.stmtExec "001_a.sql" "OK1", Event.ledgerInsert "001"]
    "syntax error" "BAD" [] [Event.stmtExec "002_b.sql" "BAD"]
    (by decide) (by rfl) (by decide) (by decide) (by rfl)).1

/-- Claim C3: during a migration run, a statement whose execution error is
ignorable — its message indicates a duplicate column or an already existing
object — is skipped and the loop continues with the next statement at the
unchanged schema, while any other execution error aborts with exactly that
message and no further statement, ledger insert, or later migration file is
processed. -/
theorem C3_ignorable_skip_hard_abort (exec : String → σ → ExecResult σ)
    (fn stmt : String) (rest : List String) (s : σ) (m : String)
    (hex : exec stmt s = .err m)
    (htrim : (⟨trimCL stmt.data⟩ : String) ≠ "") :
    (is_ignorable_sqlite_error m = true →
      runStmts exec fn (stmt :: rest) s =
        prependEv (.stmtExec fn stmt) (runStmts exec fn rest s)) ∧
    (is_ignorable_sqlite_error m = false →
      runStmts exec fn (stmt :: rest) s =
        .error (m, [.stmtExec fn stmt]) ∧
      ∀ (applied ledger : List String) (post : List MigFile) (f : MigFile),
        f.name = fn → split_sql f.content = stmt :: rest →
        versionOf fn ∉ applied →
        runFiles exec applied (f :: post) ledger s =
          ⟨ledger, s, [.stmtExec fn stmt], some m⟩) := by
  constructor
  · intro hi
    rw [runStmts, if_neg htrim, hex]
    dsimp only
    rw [if_pos hi]
  · intro hi
    have habort : runStmts exec fn (stmt :: rest) s =
        .error (m, [.stmtExec fn stmt]) := by
      rw [runStmts, if_neg htrim, hex]
      dsimp only
      rw [hi]
      simp
    refine ⟨habort, ?_⟩
    intro applied ledger post f hname hsplit hv
    subst hname
    refine runFiles_cons_err exec applied f post ledger s m _ hv ?_
    refine runFile_stmts_err exec f ledger s m _ ?_
    rw [hsplit]
    exact habort

/-- Witness for C3: an ignorable duplicate-column error is skipped, a hard
error aborts the file loop with the error propagated. -/
theorem C3_ignorable_skip_hard_abort_witness :
    runStmts (fun _ (_ : Unit) => ExecResult.err "duplicate column name: x")
      "001_a.sql" ["S1", "S2"] () =
      prependEv (.stmtExec "001_a.sql" "S1")
        (runStmts (fun _ (_ : Unit) => ExecResult.err "duplicate column name: x")
          "001_a.sql" ["S2"] ()) ∧
    runFiles (fun _ (_ : Unit) => ExecResult.err "syntax error") []
      [⟨"001_a.sql", "KABOOM"⟩, ⟨"002_b.sql", "NEXT"⟩] ["000"] () =
      ⟨["000"], (), [.stmtExec "001_a.sql" "KABOOM"], some "syntax error"⟩ := by
  constructor
  · exact (C3_ignorable_skip_hard_abort
      (fun _ (_ : Unit) => ExecResult.err "duplicate column name: x")
      "001_a.sql" "S1" ["S2"] () "duplicate column name: x"
      (by rfl) (by decide)).1 (by decide)
  · exact ((C3_ignorable_skip_hard_abort
      (fun _ (_ : Unit) => ExecResult.err "syntax error")
      "001_a.sql" "KABOOM" [] () "syntax error"
      (by rfl) (by decide)).2 (by decide)).2 [] ["000"]
      [⟨"002_b.sql", "NEXT"⟩] ⟨"001_a.sql", "KABOOM"⟩ rfl (by decide) (by decide)

/-! ### Claim theorems for the evaluation scorer -/

/-- Claim C4 counterexample: the evaluation endpoint accepts a request with
`score_numeric = 4` and an explicit `score_level = improve` and persists the
mismatched pair, because the code takes
`data.score_level or level_map[data.score_numeric]`. -/
theorem C4_counterexample :
    derive_teacher_evaluation ⟨1, 4, some .improve, ""⟩ =
      .ok (4, .improve) ∧
    level_map 4 = some .excellent ∧
    EvaluationLevel.improve ≠ EvaluationLevel.excellent :=
  ⟨rfl, rfl, by decide⟩

/-- Claim C4 (amended): an accepted evaluation that does not carry an
explicit `score_level` persists a pair that agrees under the canonical
mapping `4↔excellent, 3↔good, 2↔pass, 1↔improve`; a request carrying an
explicit `score_level` is stored as given and may disagree. -/
theorem C4_label_consistency (data : TeacherEvaluationCreate)
    (hnone : data.score_level = none) (n : Int) (lvl : EvaluationLevel)
    (hok : derive_teacher_evaluation data = .ok (n, lvl)) :
    level_map n = some lvl := by
  unfold derive_teacher_evaluation at hok
  cases hmap : level_map data.score_numeric with
  | none => rw [hmap] at hok; exact absurd hok (by simp)
  | some l0 =>
      rw [hmap, hnone] at hok
      simp only [Option.getD_none, Except.ok.injEq, Prod.mk.injEq] at hok
      obtain ⟨h1, h2⟩ := hok
      rw [← h1, ← h2]
      exact hmap

/-- Witness for the amended claim C4. -/
theorem C4_label_consistency_witness :
    derive_teacher_evaluation ⟨1, 3, none, ""⟩ = .ok (3, .good) ∧
    level_map 3 = some .good :=
  ⟨rfl, C4_label_consistency ⟨1, 3, none, ""⟩ rfl 3 .good rfl⟩

/-- Claim C5: with a fallback inside `[1,4]` — as the code always supplies,
using the default score 2 — every produced dimension score lies in `[1,4]`;
a present numeric raw score below 1 yields 1, above 4 yields 4, inside the
range it is kept unchanged, and an absent or non-numeric raw score is
replaced by the fallback. -/
theorem C5_clamp_normalize (dims : List DimensionInfo)
    (raw : String → Option RawScore) (fallback : Int)
    (hfb1 : 1 ≤ fallback) (hfb4 : fallback ≤ 4) :
    (∀ p ∈ normalize_dimension_scores dims raw fallback,
      1 ≤ p.2 ∧ p.2 ≤ 4) ∧
    (∀ d ∈ dims, ∀ x : Int, raw d.name = some (.num x) →
      (x < 1 → (d.name, (1 : Int)) ∈
        normalize_dimension_scores dims raw fallback) ∧
      (4 < x → (d.name, (4 : Int)) ∈
        normalize_dimension_scores dims raw fallback) ∧
      (1 ≤ x → x ≤ 4 → (d.name, x) ∈
        normalize_dimension_scores dims raw fallback)) ∧
    (∀ d ∈ dims, (raw d.name = none ∨ raw d.name = some .notNum) →
      (d.name, fallback) ∈ normalize_dimension_scores dims raw fallback) := by
  refine ⟨?_, ?_, ?_⟩
  · intro p hp
    unfold normalize_dimension_scores at hp
    rw [List.mem_map] at hp
    obtain ⟨d, -, rfl⟩ := hp
    cases hr : raw d.name with
    | none => simp only [hr]; exact ⟨hfb1, hfb4⟩
    | some v =>
        cases v with
        | num x =>
            simp only [hr]
            unfold clampScore
            constructor
            · exact le_max_left _ _
            · exact max_le (by norm_num) (min_le_left _ _)
        | notNum => simp only [hr]; exact ⟨hfb1, hfb4⟩
  · intro d hd x hx
    refine ⟨?_, ?_, ?_⟩
    · intro hlt
      have : clampScore x = 1 := by unfold clampScore; omega
      unfold normalize_dimension_scores
      rw [List.mem_map]
      exact ⟨d, hd, by rw [hx]; dsimp only; rw [this]⟩
    · intro hgt
      have : clampScore x = 4 := by unfold clampScore; omega
      unfold normalize_dimension_scores
      rw [List.mem_map]
      exact ⟨d, hd, by rw [hx]; dsimp only; rw [this]⟩
    · intro h1 h4
      have : clampScore x = x := by unfold clampScore; omega
      unfold normalize_dimension_scores
      rw [List.mem_map]
      exact ⟨d, hd, by rw [hx]; dsimp only; rw [this]⟩
  · intro d hd hr
    unfold normalize_dimension_scores
    rw [List.mem_map]
    refine ⟨d, hd, ?_⟩
    rcases hr with hr | hr <;> rw [hr]

/-- Witness for C5 on the inputs of the repository test
(`raw = {维度A: 5, 维度B: 0}`, fallback 2). -/
theorem C5_clamp_normalize_witness :
    ("维度A", (4 : Int)) ∈
      normalize_dimension_scores [⟨"维度A"⟩, ⟨"维度B"⟩]
        (fun n => if n = "维度A" then some (.num 5)
          else if n = "维度B" then some (.num 0) else none) 2 ∧
    ("维度B", (1 : Int)) ∈
      normalize_dimension_scores [⟨"维度A"⟩, ⟨"维度B"⟩]
        (fun n => if n = "维度A" then some (.num 5)
          else if n = "维度B" then some (.num 0) else none) 2 := by
  constructor
  · exact ((C5_clamp_normalize [⟨"维度A"⟩, ⟨"维度B"⟩]
      (fun n => if n = "维度A" then some (.num 5)
        else if n = "维度B" then some (.num 0) else none) 2
      (by decide) (by decide)).2.1 ⟨"维度A"⟩ (by decide) 5 (by decide)).2.1
      (by decide)
  · exact ((C5_clamp_normalize [⟨"维度A"⟩, ⟨"维度B"⟩]
      (fun n => if n = "维度A" then some (.num 5)
        else if n = "维度B" then some (.num 0) else none) 2
      (by decide) (by decide)).2.1 ⟨"维度B"⟩ (by decide) 0 (by decide)).1
      (by decide)

/-- Claim C6: for a non-empty dimension-score mapping the aggregate score is
the arithmetic mean rounded to the nearest integer with exact halves
rounding up, clamped into `[1,4]`; in particular `{a:4, b:3}` yields 4 and
`{a:2, b:3}` yields 3. -/
theorem C6_average_round_half_up (scores : List (String × Int))
    (h : scores ≠ []) :
    compute_average_score scores =
      clampScore
        ⌊((scores.map Prod.snd).sum : ℚ) / (scores.length : ℚ) + 1 / 2⌋ ∧
    compute_average_score [("a", 4), ("b", 3)] = 4 ∧
    compute_average_score [("a", 2), ("b", 3)] = 3 := by
  refine ⟨?_, by decide, by decide⟩
  have hn : scores.length ≠ 0 := fun h0 => h (List.length_eq_zero.mp h0)
  unfold compute_average_score
  rw [if_neg hn]
  congr 1
  have hq : ((scores.map Prod.snd).sum : ℚ) / (scores.length : ℚ) + 1 / 2 =
      (((2 * (scores.map Prod.snd).sum + scores.length : ℤ) : ℚ)) /
        (((2 * scores.length : ℕ) : ℚ)) := by
    have h0 : (scores.length : ℚ) ≠ 0 := Nat.cast_ne_zero.mpr hn
    push_cast
    field_simp
    ring
  rw [hq, Rat.floor_intCast_div_natCast]
  push_cast
  rfl

/-- Witness for C6 applying the mean formula at `{a:4, b:3}`. -/
theorem C6_average_round_half_up_witness :
    compute_average_score [("a", 4), ("b", 3)] =
      clampScore
        ⌊((([("a", (4 : Int)), ("b", 3)].map Prod.snd).sum : ℚ) /
          (([("a", (4 : Int)), ("b", 3)].length : ℚ)) + 1 / 2)⌋ :=
  (C6_average_round_half_up [("a", 4), ("b", 3)] (by decide)).1

theorem data_append (s t : String) : (s ++ t).data = s.data ++ t.data := by
  obtain ⟨a⟩ := s
  obtain ⟨b⟩ := t
  rfl

theorem default_level_text_ne (name : String) (lvl : EvaluationLevel) :
    default_level_text name lvl ≠ "" := by
  intro h
  have hd := congrArg String.data h
  unfold default_level_text at hd
  rw [data_append, data_append, data_append] at hd
  have h5 : ("水平的表现" : String).data.length = 5 := by decide
  have := congrArg List.length hd
  simp only [List.length_append, h5] at this
  simp at this

theorem fill_level_ne (name : String) (lvl : EvaluationLevel)
    (given : Option String) : fill_level name lvl given ≠ "" := by
  cases given with
  | none => exact default_level_text_ne name lvl
  | some t =>
      unfold fill_level
      dsimp only
      by_cases ht : t = ""
      · rw [if_pos ht]; exact default_level_text_ne name lvl
      · rw [if_neg ht]; exact ht

theorem normalize_dim_levels_ne (d : DimInput) :
    (normalize_dim d).levels.excellent ≠ "" ∧
    (normalize_dim d).levels.good ≠ "" ∧
    (normalize_dim d).levels.pass ≠ "" ∧
    (normalize_dim d).levels.improve ≠ "" :=
  ⟨fill_level_ne d.name .excellent _, fill_level_ne d.name .good _,
    fill_level_ne d.name .pass _, fill_level_ne d.name .improve _⟩

theorem normalize_rubric_dims (atype : AssignmentType) (r : RubricInput) :
    ∃ ds : List DimInput, ds ≠ [] ∧
      (normalize_rubric atype r).dimensions = ds.map normalize_dim := by
  cases r with
  | missing =>
      refine ⟨(default_dimension_names atype).map
        (fun n => (⟨n, none, none, none⟩ : DimInput)), ?_, ?_⟩
      · cases atype <;> decide
      · show (default_rubric atype).dimensions = _
        unfold default_rubric
        rw [List.map_map]
        rfl
  | nameList names =>
      by_cases hn : names = []
      · refine ⟨(default_dimension_names atype).map
          (fun n => (⟨n, none, none, none⟩ : DimInput)), ?_, ?_⟩
        · cases atype <;> decide
        · show (normalize_rubric atype (.nameList names)).dimensions = _
          unfold normalize_rubric
          dsimp only
          rw [if_pos hn]
          unfold default_rubric
          rw [List.map_map]
          rfl
      · refine ⟨names.map (fun n => (⟨n, none, none, none⟩ : DimInput)),
          by simpa using hn, ?_⟩
        show (normalize_rubric atype (.nameList names)).dimensions = _
        unfold normalize_rubric
        dsimp only
        rw [if_neg hn, List.map_map]
        rfl
  | dimList dims =>
      by_cases hd : dims = []
      · refine ⟨(default_dimension_names atype).map
          (fun n => (⟨n, none, none, none⟩ : DimInput)), ?_, ?_⟩
        · cases atype <;> decide
        · show (normalize_rubric atype (.dimList dims)).dimensions = _
          unfold normalize_rubric
          dsimp only
          rw [if_pos hd]
          unfold default_rubric
          rw [List.map_map]
          rfl
      · exact ⟨dims, hd, by
          show (normalize_rubric atype (.dimList dims)).dimensions = _
          unfold normalize_rubric
          dsimp only
          rw [if_neg hd]⟩

/-- Claim C7: rubric normalization is idempotent — normalizing the canonical
view of its own output returns it unchanged — every output dimension carries
the four levels keys with non-empty text (the `Levels` record has exactly
the four canonical fields), and any numeric weight on legacy input is
discarded: erasing weights before normalizing does not change the output. -/
theorem C7_rubric_normalization :
    (∀ (atype : AssignmentType) (r : RubricInput),
      normalize_rubric atype (canon_to_input (normalize_rubric atype r)) =
        normalize_rubric atype r) ∧
    (∀ (atype : AssignmentType) (r : RubricInput),
      ∀ d ∈ (normalize_rubric atype r).dimensions,
        d.levels.excellent ≠ "" ∧ d.levels.good ≠ "" ∧
        d.levels.pass ≠ "" ∧ d.levels.improve ≠ "") ∧
    (∀ (atype : AssignmentType) (ds : List DimInput),
      normalize_rubric atype (.dimList (ds.map eraseWeight)) =
        normalize_rubric atype (.dimList ds)) := by
  have hkeys : ∀ (atype : AssignmentType) (r : RubricInput),
      ∀ d ∈ (normalize_rubric atype r).dimensions,
        d.levels.excellent ≠ "" ∧ d.levels.good ≠ "" ∧
        d.levels.pass ≠ "" ∧ d.levels.improve ≠ "" := by
    intro atype r d hd
    obtain ⟨ds, -, hds⟩ := normalize_rubric_dims atype r
    rw [hds, List.mem_map] at hd
    obtain ⟨d0, -, rfl⟩ := hd
    exact normalize_dim_levels_ne d0
  have hcanon : ∀ (atype : AssignmentType) (R : CanonRubric),
      R.dimensions ≠ [] →
      (∀ d ∈ R.dimensions,
        d.levels.excellent ≠ "" ∧ d.levels.good ≠ "" ∧
        d.levels.pass ≠ "" ∧ d.levels.improve ≠ "") →
      normalize_rubric atype (canon_to_input R) = R := by
    intro atype R hne hkR
    have hlistne : R.dimensions.map
        (fun d => (⟨d.name, none, none,
          some ⟨some d.levels.excellent, some d.levels.good,
            some d.levels.pass, some d.levels.improve⟩⟩ : DimInput)) ≠ [] := by
      simpa using hne
    show normalize_rubric atype (.dimList _) = _
    unfold normalize_rubric
    dsimp only
    rw [if_neg hlistne, List.map_map]
    have hdim : ∀ d ∈ R.dimensions,
        (normalize_dim ∘ fun d => (⟨d.name, none, none,
          some ⟨some d.levels.excellent, some d.levels.good,
            some d.levels.pass, some d.levels.improve⟩⟩ : DimInput)) d = d := by
      intro d hd
      obtain ⟨he, hg, hp, hi⟩ := hkR d hd
      show normalize_dim ⟨d.name, none, none,
        some ⟨some d.levels.excellent, some d.levels.good,
          some d.levels.pass, some d.levels.improve⟩⟩ = d
      unfold normalize_dim fill_level
      dsimp only [Option.getD_some]
      rw [if_neg he, if_neg hg, if_neg hp, if_neg hi]
    rw [List.map_congr_left hdim, List.map_id']
  refine ⟨?_, hkeys, ?_⟩
  · intro atype r
    obtain ⟨ds, hne, hds⟩ := normalize_rubric_dims atype r
    refine hcanon atype (normalize_rubric atype r) ?_ (hkeys atype r)
    rw [hds]
    simpa using hne
  · intro atype ds
    by_cases hd : ds = []
    · subst hd; rfl
    · have hd' : ds.map eraseWeight ≠ [] := by
        simpa using hd
      show normalize_rubric atype (.dimList _) = _
      unfold normalize_rubric
      dsimp only
      rw [if_neg hd', if_neg hd, List.map_map]
      rfl

/-- Witness for C7: normalizing a legacy weighted dimension is idempotent
and yields non-empty four-level text. -/
theorem C7_rubric_normalization_witness :
    normalize_rubric .practical (canon_to_input (normalize_rubric .practical
      (.dimList [⟨"维度A", some 20, some "旧描述", none⟩]))) =
      normalize_rubric .practical
        (.dimList [⟨"维度A", some 20, some "旧描述", none⟩]) ∧
    (normalize_dim ⟨"维度A", some 20, some "旧描述", none⟩).levels.excellent ≠
      "" := by
  constructor
  · exact C7_rubric_normalization.1 .practical
      (.dimList [⟨"维度A", some 20, some "旧描述", none⟩])
  · exact (C7_rubric_normalization.2.1 .practical
      (.dimList [⟨"维度A", some 20, some "旧描述", none⟩])
      (normalize_dim ⟨"维度A", some 20, some "旧描述", none⟩) (by decide)).1

/-- Claim C8: legacy level normalization maps A/B/C/D to
excellent/good/pass/improve, maps a percentage to the four levels at the
fixed `≥90/≥75/≥60` thresholds, passes canonical labels and 1–4 numbers
through, and maps any unrecognized token to improve. -/
theorem C8_legacy_level_normalization :
    (normalize_level_input (.str "A") = .excellent ∧
      normalize_level_input (.str "B") = .good ∧
      normalize_level_input (.str "C") = .pass ∧
      normalize_level_input (.str "D") = .improve) ∧
    (∀ n : Int, 0 ≤ n → n ≤ 100 → ¬(1 ≤ n ∧ n ≤ 4) →
      (90 ≤ n → normalize_level_input (.num n) = .excellent) ∧
      (75 ≤ n → n < 90 → normalize_level_input (.num n) = .good) ∧
      (60 ≤ n → n < 75 → normalize_level_input (.num n) = .pass) ∧
      (n < 60 → normalize_level_input (.num n) = .improve)) ∧
    (normalize_level_input (.str "excellent") = .excellent ∧
      normalize_level_input (.str "good") = .good ∧
      normalize_level_input (.str "pass") = .pass ∧
      normalize_level_input (.str "improve") = .improve) ∧
    (normalize_level_input (.num 4) = .excellent ∧
      normalize_level_input (.num 3) = .good ∧
      normalize_level_input (.num 2) = .pass ∧
      normalize_level_input (.num 1) = .improve) ∧
    (∀ s : String,
      s ∉ (["A", "B", "C", "D", "excellent", "good", "pass", "improve"] :
        List String) →
      normalize_level_input (.str s) = .improve) := by
  refine ⟨by refine ⟨?_, ?_, ?_, ?_⟩ <;> decide, ?_, by
    refine ⟨?_, ?_, ?_, ?_⟩ <;> decide, by
    refine ⟨?_, ?_, ?_, ?_⟩ <;> decide, ?_⟩
  · intro n h0 h100 hno
    have h4 : ¬(n = 4) := by omega
    have h3 : ¬(n = 3) := by omega
    have h2 : ¬(n = 2) := by omega
    have h1 : ¬(n = 1) := by omega
    refine ⟨?_, ?_, ?_, ?_⟩
    · intro h90
      show normalize_level_input (.num n) = .excellent
      unfold normalize_level_input
      dsimp only
      rw [if_neg h4, if_neg h3, if_neg h2, if_neg h1,
        if_pos (show n ≥ 90 by omega)]
    · intro h75 h90
      show normalize_level_input (.num n) = .good
      unfold normalize_level_input
      dsimp only
      rw [if_neg h4, if_neg h3, if_neg h2, if_neg h1,
        if_neg (show ¬(n ≥ 90) by omega), if_pos (show n ≥ 75 by omega)]
    · intro h60 h75
      show normalize_level_input (.num n) = .pass
      unfold normalize_level_input
      dsimp only
      rw [if_neg h4, if_neg h3, if_neg h2, if_neg h1,
        if_neg (show ¬(n ≥ 90) by omega), if_neg (show ¬(n ≥ 75) by omega),
        if_pos (show n ≥ 60 by omega)]
    · intro h60
      show normalize_level_input (.num n) = .improve
      unfold normalize_level_input
      dsimp only
      rw [if_neg h4, if_neg h3, if_neg h2, if_neg h1,
        if_neg (show ¬(n ≥ 90) by omega), if_neg (show ¬(n ≥ 75) by omega),
        if_neg (show ¬(n ≥ 60) by omega)]
  · intro s hs
    simp only [List.mem_cons, List.not_mem_nil, or_false, not_or] at hs
    obtain ⟨hA, hB, hC, hD, hex, hgo, hpa, him⟩ := hs
    show normalize_level_input (.str s) = .improve
    unfold normalize_level_input
    dsimp only
    rw [if_neg (by tauto), if_neg (by tauto), if_neg (by tauto),
      if_neg (by tauto)]

/-- Witness for C8 at a percentage input and an unrecognized token. -/
theorem C8_legacy_level_normalization_witness :
    normalize_level_input (.num 80) = .good ∧
    normalize_level_input (.str "B+") = .improve := by
  constructor
  · exact (C8_legacy_level_normalization.2.1 80 (by decide) (by decide)
      (by decide)).2.1 (by decide) (by decide)
  · exact C8_legacy_level_normalization.2.2.2.2 "B+" (by decide)

end CDAS
